import Mathlib

/-!
Verification development for the arap-web-deformer interaction pipeline.

The definitions below are a shallow embedding of the TypeScript source:
`src/App.tsx` (selection handlers, deformation scheduler, pointer-event
controller, vertex picking, model vertex update) and the
`WasmSolverService` singleton (engine lifecycle).  Each definition's doc
comment names the source function and lines it embeds.
-/

/-- Scalar observed by the code.  The source only ever inspects a JS number
through `isFinite`, so we embed a number as either a finite value (abstracted
as an integer) or one of the non-finite values NaN / Infinity / -Infinity. -/
inductive JNum
  | fin (v : Int)
  | nan
  | posInf
  | negInf
  deriving DecidableEq

/-- JS `isFinite`: true exactly on finite numbers. -/
def JNum.isFinite : JNum → Bool
  | .fin _ => true
  | _ => false

/-- A THREE.Vector3 with the scalar embedding above. -/
structure V3 where
  x : JNum
  y : JNum
  z : JNum
  deriving DecidableEq

/-- A finite vector, used by concrete instances. -/
def v3 (a b c : Int) : V3 := ⟨.fin a, .fin b, .fin c⟩

/-- The JS `Map<number, Vector3>` used for `handlePositions`: an
insertion-ordered association list with unique keys. -/
abbrev PosMap := List (Nat × V3)

/-- JS `Map.has`. -/
def mapHas (m : PosMap) (k : Nat) : Bool := m.any (fun e => e.1 == k)

/-- JS `Map.set`: updates an existing key in place (keeping insertion order),
otherwise appends the new entry. -/
def mapSet (m : PosMap) (k : Nat) (v : V3) : PosMap :=
  match m with
  | [] => [(k, v)]
  | e :: rest => if e.1 == k then (k, v) :: rest else e :: mapSet rest k v

/-- JS `Map.get`, as an `Option`. -/
def mapGet (m : PosMap) (k : Nat) : Option V3 :=
  (m.find? (fun e => e.1 == k)).map (fun e => e.2)

/-- JS `Map.delete`. -/
def mapDelete (m : PosMap) (k : Nat) : PosMap :=
  m.filter (fun e => !(e.1 == k))

/-- Geometry state owned by the Model component: the flat local-space vertex
buffer of `geometry.attributes.position`, the `needsUpdate` flag, and a
counter of `computeVertexNormals` calls. -/
structure GeomState where
  buffer : List JNum
  needsUpdate : Bool
  normalsVersion : Nat
  deriving DecidableEq

/-- TypedArray.prototype.set semantics used by `BufferAttribute.copyArray`
(`this.array.set(array)`): a source longer than the target throws a
RangeError before copying anything; otherwise the first `src.length` entries
of the target are overwritten and the rest are kept. -/
def typedArraySet (target src : List JNum) : Except String (List JNum) :=
  if target.length < src.length then .error "RangeError: offset is out of bounds"
  else .ok (src ++ target.drop src.length)

/-- Embeds `updateVertices` (App.tsx lines 73-80, exposed by the Model
component).  A null geometry is an early return; otherwise the buffer is
copied in via `copyArray`, `needsUpdate` is set, and vertex normals are
recomputed.  An `error` result models the RangeError thrown out of
`copyArray`; the typed-array bounds check happens before any copy, so the
geometry is unchanged on that path. -/
def updateVertices (g : Option GeomState) (newVertices : List JNum) :
    Except String (Option GeomState) :=
  match g with
  | none => .ok none
  | some gs =>
    match typedArraySet gs.buffer newVertices with
    | .error e => .error e
    | .ok arr => .ok (some { buffer := arr, needsUpdate := true,
                             normalsVersion := gs.normalsVersion + 1 })

/-- The App component state touched by the selection handlers and the
deformation scheduler: `handleIndices`, `anchorIndices`, `handlePositions`,
the pending solve request `latestDragInfo`, the frame-scheduled flag
(`animationFrameId.current !== null`), the `isWasmReady` state, and the
loaded geometry. -/
structure AppState where
  handleIndices : List Nat
  anchorIndices : List Nat
  handlePositions : PosMap
  latestDragInfo : Option (Nat × V3)
  frameScheduled : Bool
  isWasmReady : Bool
  geom : Option GeomState
  deriving DecidableEq

/-- The App state before any selection: empty index lists, empty position
map, no pending request, no scheduled frame. -/
def emptyAppState : AppState :=
  ⟨[], [], [], none, false, false, none⟩

/-- Embeds `handleVertexSelected` (App.tsx lines 311-318).  `modelPresent`
is whether `modelRef.current` is non-null and `pos` is the result of
`getVertexWorldPosition(index)`; on either missing, the handler returns
early.  Otherwise the index is appended to `handleIndices` unless already
present, and its position is written into `handlePositions`.  Note that the
handler never touches `anchorIndices`. -/
def handleVertexSelected (modelPresent : Bool) (pos : Option V3) (index : Nat)
    (s : AppState) : AppState :=
  if !modelPresent then s else
  match pos with
  | none => s
  | some initialPos =>
    { s with
      handleIndices :=
        if s.handleIndices.contains index then s.handleIndices
        else s.handleIndices ++ [index]
      handlePositions := mapSet s.handlePositions index initialPos }

/-- Embeds `handleAnchorSelected` (App.tsx lines 320-335).  Returns the new
state together with whether the already-a-handle warning fired.  A null
`modelRef` returns early; an index already in `handleIndices` is a warned
no-op; a null world position returns early; otherwise membership in
`anchorIndices` is toggled and the position map entry is toggled by
`handlePositions.has(index)`. -/
def handleAnchorSelected (modelPresent : Bool) (pos : Option V3) (index : Nat)
    (s : AppState) : AppState × Bool :=
  if !modelPresent then (s, false) else
  if s.handleIndices.contains index then (s, true) else
  match pos with
  | none => (s, false)
  | some initialPos =>
    ({ s with
       anchorIndices :=
         if s.anchorIndices.contains index then
           s.anchorIndices.filter (fun i => !(i == index))
         else s.anchorIndices ++ [index]
       handlePositions :=
         if mapHas s.handlePositions index then
           mapDelete s.handlePositions index
         else mapSet s.handlePositions index initialPos }, false)

/-- Embeds `clearSelection` (App.tsx lines 337-341): empties both index
lists and the position map. -/
def clearSelection (s : AppState) : AppState :=
  { s with handleIndices := [], anchorIndices := [], handlePositions := [] }

/-- One user-level selection operation.  The `modelPresent` flag and the
optional fetched world position are per-call inputs, mirroring the
handler's reads of `modelRef.current` and `getVertexWorldPosition`. -/
inductive SelOp
  | select (modelPresent : Bool) (pos : Option V3) (index : Nat)
  | anchor (modelPresent : Bool) (pos : Option V3) (index : Nat)
  | clear

/-- Applies one selection operation to the App state. -/
def selStep (s : AppState) : SelOp → AppState
  | .select mp p i => handleVertexSelected mp p i s
  | .anchor mp p i => (handleAnchorSelected mp p i s).1
  | .clear => clearSelection s

/-- Applies a sequence of selection operations. -/
def runSelOps (s : AppState) (ops : List SelOp) : AppState :=
  ops.foldl selStep s

/-- The live model transform (`modelGroup`): the pair of
`worldToLocal` / `localToWorld` conversions read at frame time. -/
structure Transform where
  worldToLocal : V3 → V3
  localToWorld : V3 → V3

/-- The identity transform, for concrete instances. -/
def idTransform : Transform := ⟨fun p => p, fun p => p⟩

/-- One call made to the WasmSolverService by the frame callback. -/
inductive SolverCall
  | setHandles (indices : List Nat) (positions : List JNum)
  | solve (maxIterations : Nat)
  | getVertices
  deriving DecidableEq

/-- Recognizes a setHandles call. -/
def isSetHandlesCall : SolverCall → Bool
  | .setHandles _ _ => true
  | _ => false

/-- Recognizes a solve call. -/
def isSolveCall : SolverCall → Bool
  | .solve _ => true
  | _ => false

/-- Embeds `containsInvalidNumbers` (App.tsx line 376) on the position
buffer: true when some entry fails `isFinite`. -/
def containsInvalidNumbers (arr : List JNum) : Bool :=
  !(arr.all (fun n => n.isFinite))

/-- An Int32Array entry is always a finite number. -/
def int32IsFinite (_ : Nat) : Bool := true

/-- Embeds `containsInvalidNumbers` applied to the Int32Array of constraint
indices; such entries are always finite. -/
def containsInvalidIndices (arr : List Nat) : Bool :=
  !(arr.all int32IsFinite)

/-- Embeds the constraint-payload construction of `runDeformation`
(App.tsx lines 350-363): first every anchor with a stored position, then
every handle — the dragged one at the pending request's position, the
others at their stored positions. -/
def buildAllConstraints (s : AppState) (draggedIndex : Nat) (draggedPos : V3) :
    PosMap :=
  let anchorsPart := s.anchorIndices.foldl
    (fun m ai =>
      match mapGet s.handlePositions ai with
      | some p => mapSet m ai p
      | none => m) []
  s.handleIndices.foldl
    (fun m hi =>
      if hi == draggedIndex then mapSet m hi draggedPos
      else
        match mapGet s.handlePositions hi with
        | some p => mapSet m hi p
        | none => m) anchorsPart

/-- The Int32Array of constraint indices (App.tsx line 365): the keys of
the constraints map in insertion order. -/
def constraintIndices (m : PosMap) : List Nat := m.map (fun e => e.1)

/-- The Float32Array of local-space constraint positions (App.tsx lines
373-374): each world position converted through `worldToLocal` and
flattened to coordinates. -/
def constraintPositions (t : Transform) (m : PosMap) : List JNum :=
  (m.map (fun e => t.worldToLocal e.2)).flatMap (fun p => [p.x, p.y, p.z])

/-- JS indexing into a Float32Array: out-of-range reads give `undefined`,
which the THREE.Vector3 constructor replaces by the default 0. -/
def jsAt (arr : List JNum) (i : Nat) : JNum := (arr.get? i).getD (.fin 0)

/-- Reads vertex `ci` of a flat vertex buffer (App.tsx lines 393-394). -/
def vertexAt (arr : List JNum) (ci : Nat) : V3 :=
  ⟨jsAt arr (3 * ci), jsAt arr (3 * ci + 1), jsAt arr (3 * ci + 2)⟩

/-- Result of one `runDeformation` frame callback: the new App state, the
calls made to the solver service, the `console.error` messages, and an
uncaught exception if one was thrown (only the typed-array RangeError
inside `updateVertices` can throw here). -/
structure FrameResult where
  state : AppState
  calls : List SolverCall
  errors : List String
  thrown : Option String
  deriving DecidableEq

/-- Embeds `runDeformation` (App.tsx lines 343-404).  `mg` is the model
group's transform at frame time (`none` when `getModelGroup()` is null) and
`solverGetVertices` is what `WasmSolverService.getVertices()` returns for
this frame.  Branches, in source order: missing pending request or engine
not ready (clear flag, exit); missing model group (error, clear flag,
exit); invalid numbers detected (error, exit — note the flag is NOT
cleared on this path); then setHandles / solve(50) / getVertices; on a
result, apply it to the geometry and rebuild every constraint's stored
world position; otherwise surface an error; finally clear the flag. -/
def runDeformation (mg : Option Transform) (solverGetVertices : Option (List JNum))
    (s : AppState) : FrameResult :=
  match s.latestDragInfo, s.isWasmReady with
  | none, _ => ⟨{ s with frameScheduled := false }, [], [], none⟩
  | some _, false => ⟨{ s with frameScheduled := false }, [], [], none⟩
  | some (draggedIndex, draggedPos), true =>
    let allConstraints := buildAllConstraints s draggedIndex draggedPos
    let indices := constraintIndices allConstraints
    match mg with
    | none =>
      ⟨{ s with frameScheduled := false }, [],
        ["Could not get model group for coordinate conversion."], none⟩
    | some t =>
      let positions := constraintPositions t allConstraints
      if containsInvalidIndices indices || containsInvalidNumbers positions then
        ⟨s, [],
          ["FATAL: Invalid numbers (NaN or Infinity) detected in data being sent to WASM!"],
          none⟩
      else
        let calls : List SolverCall :=
          [.setHandles indices positions, .solve 50, .getVertices]
        match solverGetVertices with
        | some newAllVertices =>
          match updateVertices s.geom newAllVertices with
          | .error e => ⟨s, calls, [], some e⟩
          | .ok geom2 =>
            let allConstraintIndices := s.handleIndices ++ s.anchorIndices
            let newPositions := allConstraintIndices.foldl
              (fun m ci => mapSet m ci (t.localToWorld (vertexAt newAllVertices ci))) []
            ⟨{ s with geom := geom2, handlePositions := newPositions,
                      frameScheduled := false }, calls, [], none⟩
        | none =>
          ⟨{ s with frameScheduled := false }, calls,
            ["Wasm solver did not return any vertices."], none⟩

/-- Embeds `handleMove` (App.tsx lines 406-411): overwrite the pending
solve request with the latest (index, position); if no frame callback is
scheduled, schedule one.  The returned Bool records whether
`requestAnimationFrame` was called. -/
def handleMove (draggedIndex : Nat) (newPosition : V3) (s : AppState) :
    AppState × Bool :=
  let s1 := { s with latestDragInfo := some (draggedIndex, newPosition) }
  if s1.frameScheduled then (s1, false)
  else ({ s1 with frameScheduled := true }, true)

/-- One `handleMove` call threaded through an accumulator that counts how
many frame callbacks were scheduled. -/
def moveStep (acc : AppState × Nat) (mv : Nat × V3) : AppState × Nat :=
  let r := handleMove mv.1 mv.2 acc.1
  (r.1, acc.2 + (if r.2 then 1 else 0))

/-- Applies a burst of `handleMove` calls, counting how many frame
callbacks get scheduled. -/
def applyMoves (moves : List (Nat × V3)) (s : AppState) : AppState × Nat :=
  moves.foldl moveStep (s, 0)

/-- The interaction mode selected in the UI. -/
inductive Mode
  | view
  | select
  | deform
  deriving DecidableEq

/-- The DeformationController's persistent drag ref (App.tsx lines
108-112): `isDragging` and the dragged handle's index (-1 when idle).  The
drag plane is kept abstract: its only use is producing the pointer-move
intersection point, which we model as the move event's payload. -/
structure DragState where
  isDragging : Bool
  handleIndex : Int
  deriving DecidableEq

/-- Effect of `onPointerDown` (App.tsx lines 135-179) on the drag state.
`handleHit` is the handle-marker index hit by the ray in deform mode
(`none` when the ray misses all markers).  In select mode the handler only
drives the selection callbacks and in view mode it does nothing; neither
touches the drag state. -/
def onPointerDown (mode : Mode) (handleHit : Option Nat) (d : DragState) :
    DragState :=
  match mode with
  | .deform =>
    match handleHit with
    | some idx => { isDragging := true, handleIndex := (idx : Int) }
    | none => d
  | _ => d

/-- Embeds `onPointerMove` (App.tsx lines 181-197): returns the
`onHandleMove(dragState.handleIndex, intersectionPoint)` emission, or
`none` when not dragging or the mode is not deform.  `point` is the
ray/drag-plane intersection computed from the event. -/
def onPointerMove (mode : Mode) (point : V3) (d : DragState) :
    Option (Int × V3) :=
  if !d.isDragging || !(mode == .deform) then none
  else some (d.handleIndex, point)

/-- Embeds `onPointerUp` (App.tsx lines 199-205): closes the drag session
when one is active, otherwise does nothing. -/
def onPointerUp (d : DragState) : DragState :=
  if d.isDragging then { isDragging := false, handleIndex := -1 } else d

/-- Combined controller state: the externally-selected mode together with
the drag ref.  The mode is owned by the App's Radio group; switching it
re-renders the controller but, in the source, leaves the drag ref
untouched. -/
structure CtrlState where
  mode : Mode
  drag : DragState
  deriving DecidableEq

/-- Controller-level events: canvas pointer events plus a mode switch from
the UI. -/
inductive CtrlEvent
  | pointerDown (handleHit : Option Nat)
  | pointerMove (point : V3)
  | pointerUp
  | modeSwitch (m : Mode)

/-- One controller step; the second component is the `onHandleMove`
emission of a pointer-move, if any.  A mode switch only replaces the mode:
nothing in the source resets the drag ref when the mode changes. -/
def ctrlStep (s : CtrlState) : CtrlEvent → CtrlState × Option (Int × V3)
  | .pointerDown hit => ({ s with drag := onPointerDown s.mode hit s.drag }, none)
  | .pointerMove p => (s, onPointerMove s.mode p s.drag)
  | .pointerUp => ({ s with drag := onPointerUp s.drag }, none)
  | .modeSwitch m => ({ s with mode := m }, none)

/-- Runs a controller event sequence, collecting all `onHandleMove`
emissions in order. -/
def ctrlRun (s : CtrlState) (evs : List CtrlEvent) :
    CtrlState × List (Int × V3) :=
  evs.foldl
    (fun acc ev =>
      let r := ctrlStep acc.1 ev
      (r.1, acc.2 ++ (match r.2 with | some e => [e] | none => [])))
    (s, [])

/-- A 3D point with finite coordinates, for the picking service: picking
works on actual mesh geometry, whose coordinates are finite floats,
abstracted as integers. -/
structure V3I where
  x : Int
  y : Int
  z : Int
  deriving DecidableEq

/-- THREE.Vector3.distanceToSquared. -/
def distanceToSquared (a b : V3I) : Int :=
  (a.x - b.x) ^ 2 + (a.y - b.y) ^ 2 + (a.z - b.z) ^ 2

/-- The scan loop of `findNearestVertexIndex` (App.tsx lines 122-131).
`minD = none` models the initial `minDistanceSq = Infinity`, against which
the strict `<` comparison always succeeds; `i` is the index of the next
vertex and `best` the current `nearestVertexIndex`. -/
def findNearLoop (worldPoint : V3I) (lw : V3I → V3I) :
    List V3I → Nat → Option Int → Int → Int
  | [], _, _, best => best
  | v :: rest, i, minD, best =>
    let d := distanceToSquared (lw v) worldPoint
    match minD with
    | none => findNearLoop worldPoint lw rest (i + 1) (some d) (i : Int)
    | some m =>
      if d < m then findNearLoop worldPoint lw rest (i + 1) (some d) (i : Int)
      else findNearLoop worldPoint lw rest (i + 1) (some m) best

/-- Embeds `findNearestVertexIndex` (App.tsx lines 114-133): linear scan
over the vertex buffer, converting each local vertex to world space through
`lw` and keeping the first index of strictly smallest squared distance to
`worldPoint`; -1 when the buffer is empty. -/
def findNearestVertexIndex (worldPoint : V3I) (vertices : List V3I)
    (lw : V3I → V3I) : Int :=
  findNearLoop worldPoint lw vertices 0 none (-1)

/-- The select-mode picking pipeline (App.tsx lines 146-161):
`surfaceHit` is the closest ray/mesh intersection point (`none` when the
ray misses the mesh, in which case no selection callback fires); otherwise
the nearest vertex is resolved, and an index of -1 suppresses the
callback. -/
def pickVertex (surfaceHit : Option V3I) (vertices : List V3I)
    (lw : V3I → V3I) : Option Int :=
  match surfaceHit with
  | none => none
  | some p =>
    let k := findNearestVertexIndex p vertices lw
    if k == -1 then none else some k

/-- Squared world-space distance from vertex `j` of the buffer to the
point `p`, the quantity minimized by `findNearestVertexIndex`. -/
def dAt (p : V3I) (lw : V3I → V3I) (l : List V3I) (j : Nat) : Int :=
  distanceToSquared (lw (l.getD j ⟨0, 0, 0⟩)) p

/-- State of the WasmSolverService singleton:
`ctorInstalled` is whether `ArapController_constructor` is non-null,
`hasController` whether a controller (solver session) exists, and
`pendingInit` whether an `init()` call is suspended awaiting the module
load. -/
structure SolverService where
  ctorInstalled : Bool
  hasController : Bool
  pendingInit : Bool
  deriving DecidableEq

/-- The service before any call. -/
def freshSolverService : SolverService := ⟨false, false, false⟩

/-- Start of `WasmSolverService.init()`: if the constructor is already
installed the call completes as a no-op; otherwise the call suspends on
the awaited module load. -/
def WasmSolverService.initStart (s : SolverService) : SolverService :=
  if s.ctorInstalled then s else { s with pendingInit := true }

/-- Resolution of the in-flight module-load promise: the suspended
`init()` continuation runs `this.ArapController_constructor =
module.ArapController` unconditionally — the source has no cancellation
check, so the assignment happens even if `cleanup()` ran in between. -/
def WasmSolverService.initResolve (s : SolverService) : SolverService :=
  if s.pendingInit then { s with ctorInstalled := true, pendingInit := false }
  else s

/-- Embeds `WasmSolverService.cleanup()`: deletes the controller if one
exists and nulls the stored constructor.  It does not touch an in-flight
`init()`. -/
def WasmSolverService.cleanup (s : SolverService) : SolverService :=
  { s with hasController := false, ctorInstalled := false }

/-- Embeds `WasmSolverService.loadMesh` (state effect only): throws the
NotInitialized error when no constructor is installed, otherwise replaces
any prior controller with a fresh one. -/
def WasmSolverService.loadMesh (s : SolverService) : Except String SolverService :=
  if !s.ctorInstalled then
    .error "WasmSolverService is not initialized. Call init() first."
  else .ok { s with hasController := true }

/-- Concrete transform whose world-to-local conversion produces NaN
coordinates, as happens when the model matrix is degenerate. -/
def tNan : Transform := ⟨fun _ => ⟨.nan, .nan, .nan⟩, fun p => p⟩

/-- Concrete App state with one handle being dragged: a pending request
for vertex 0 and a scheduled frame, with the engine ready. -/
def dragStateOneHandle : AppState :=
  { handleIndices := [0], anchorIndices := [],
    handlePositions := [(0, v3 1 0 0)],
    latestDragInfo := some (0, v3 2 0 0),
    frameScheduled := true, isWasmReady := true,
    geom := some ⟨[.fin 0, .fin 0, .fin 0], false, 0⟩ }

/-- Looking up the key just written by `mapSet` yields the written value. -/
theorem mapGet_mapSet_self (m : PosMap) (k : Nat) (v : V3) :
    mapGet (mapSet m k v) k = some v := by
  induction m with
  | nil => simp [mapSet, mapGet]
  | cons e rest ih =>
    by_cases he : e.1 = k
    · simp [mapSet, he, mapGet]
    · simp only [mapSet, mapGet] at *
      simp [he, ih]

/-- Writing one key with `mapSet` leaves lookups of other keys unchanged. -/
theorem mapGet_mapSet_ne (m : PosMap) (k k2 : Nat) (v : V3) (h : k2 ≠ k) :
    mapGet (mapSet m k2 v) k = mapGet m k := by
  induction m with
  | nil => simp [mapSet, mapGet, h]
  | cons e rest ih =>
    by_cases he : e.1 = k2
    · have hek : ¬ e.1 = k := by rw [he]; exact h
      simp [mapSet, he, mapGet, h, hek]
    · by_cases he2 : e.1 = k
      · have hk2 : ¬ k = k2 := fun hh => h hh.symm
        simp [mapSet, he, mapGet, he2, hk2]
      · simp only [mapSet, mapGet] at ih ⊢
        simp [he, he2, ih]

/-- Deleting a key removes it from the map. -/
theorem mapGet_mapDelete_self (m : PosMap) (k : Nat) :
    mapGet (mapDelete m k) k = none := by
  induction m with
  | nil => simp [mapDelete, mapGet]
  | cons e rest ih =>
    by_cases he : e.1 = k
    · simp only [mapDelete, mapGet] at ih ⊢
      simp [he, ih]
    · simp only [mapDelete, mapGet] at ih ⊢
      simp [he, ih]

/-- C1 (code_bug): the claimed disjointness invariant fails in the code.
Starting from the empty constraint state, `toggleAnchor(2)` followed by
`selectHandle(2)` leaves index 2 in BOTH the handle list and the anchor
list: `handleVertexSelected` never removes the index from `anchorIndices`,
contradicting the claim that selecting a current anchor as a handle
removes the anchor entry. -/
theorem select_on_anchor_keeps_both_roles :
    (selStep (selStep emptyAppState (.anchor true (some (v3 0 0 0)) 2))
      (.select true (some (v3 0 0 0)) 2)).handleIndices.contains 2 = true ∧
    (selStep (selStep emptyAppState (.anchor true (some (v3 0 0 0)) 2))
      (.select true (some (v3 0 0 0)) 2)).anchorIndices.contains 2 = true := by
  decide

/-- C2 (code_bug): the invalid-numbers early return in `runDeformation`
(App.tsx line 379) does not clear `animationFrameId`.  On a frame whose
converted constraint positions contain NaN, the callback aborts before the
solver call but leaves the frame-scheduled flag set, so no subsequent
`onHandleMove` can ever schedule another frame. -/
theorem runDeformation_invalid_numeric_flag_not_cleared :
    (runDeformation (some tNan) none dragStateOneHandle).state.frameScheduled = true ∧
    (runDeformation (some tNan) none dragStateOneHandle).calls = [] ∧
    (runDeformation (some tNan) none dragStateOneHandle).errors =
      ["FATAL: Invalid numbers (NaN or Infinity) detected in data being sent to WASM!"] := by
  decide

/-- C4 (counterexample): `updateVertices` performs no size validation.
On a mesh with 2 vertices (buffer length 6), a supplied buffer of length 3
does not fail with SizeMismatch: the call succeeds, overwrites the first 3
entries of the vertex buffer and keeps the rest, and triggers normal
recomputation — the buffer is changed, contradicting the claim. -/
theorem updateVertices_short_buffer_no_failure :
    updateVertices (some ⟨[.fin 1, .fin 1, .fin 1, .fin 1, .fin 1, .fin 1], false, 0⟩)
      [.fin 9, .fin 9, .fin 9] =
      .ok (some ⟨[.fin 9, .fin 9, .fin 9, .fin 1, .fin 1, .fin 1], true, 1⟩) ∧
    ([.fin 9, .fin 9, .fin 9, .fin 1, .fin 1, .fin 1] : List JNum) ≠
      [.fin 1, .fin 1, .fin 1, .fin 1, .fin 1, .fin 1] :=
  ⟨rfl, by decide⟩

/-- C7 (counterexample): a mode switch does not close an active drag
session.  After a deform-mode pointer-down on handle 5, switching the mode
to select leaves `isDragging = true` with `handleIndex = 5`; switching
back to deform and moving the pointer resumes the old drag, emitting
`onHandleMove(5, point)`. -/
theorem mode_switch_leaves_drag_open :
    (ctrlRun ⟨.deform, ⟨false, -1⟩⟩
      [.pointerDown (some 5), .modeSwitch .select]).1.drag.isDragging = true ∧
    (ctrlRun ⟨.deform, ⟨false, -1⟩⟩
      [.pointerDown (some 5), .modeSwitch .select]).1.drag.handleIndex = 5 ∧
    (ctrlRun ⟨.deform, ⟨false, -1⟩⟩
      [.pointerDown (some 5), .modeSwitch .select, .modeSwitch .deform,
        .pointerMove (v3 7 8 9)]).2 = [(5, v3 7 8 9)] := by
  decide

/-- C9 (counterexample): disposal during an in-flight `init()` does not
discard its result.  From a fresh service: `init()` suspends, `cleanup()`
runs, then the module-load promise resolves — the continuation installs
the constructor anyway, and a subsequent `loadMesh` succeeds instead of
failing with NotInitialized. -/
theorem inflight_init_installs_after_cleanup :
    (WasmSolverService.initResolve
      (WasmSolverService.cleanup
        (WasmSolverService.initStart freshSolverService))).ctorInstalled = true ∧
    WasmSolverService.loadMesh
      (WasmSolverService.initResolve
        (WasmSolverService.cleanup
          (WasmSolverService.initStart freshSolverService))) =
      .ok ⟨true, true, false⟩ :=
  ⟨by decide, rfl⟩

/-- One selection step preserves no-duplicates of both index lists. -/
theorem selStep_nodup (s : AppState) (op : SelOp)
    (hh : s.handleIndices.Nodup) (ha : s.anchorIndices.Nodup) :
    (selStep s op).handleIndices.Nodup ∧ (selStep s op).anchorIndices.Nodup := by
  cases op with
  | select mp p i =>
    cases mp with
    | false => simpa [selStep, handleVertexSelected] using ⟨hh, ha⟩
    | true =>
      cases p with
      | none => simpa [selStep, handleVertexSelected] using ⟨hh, ha⟩
      | some q =>
        by_cases hc : i ∈ s.handleIndices
        · simpa [selStep, handleVertexSelected, hc] using ⟨hh, ha⟩
        · constructor
          · simp [selStep, handleVertexSelected, hc, List.nodup_append, hh]
          · simpa [selStep, handleVertexSelected, hc] using ha
  | anchor mp p i =>
    cases mp with
    | false => simpa [selStep, handleAnchorSelected] using ⟨hh, ha⟩
    | true =>
      by_cases hc : i ∈ s.handleIndices
      · simpa [selStep, handleAnchorSelected, hc] using ⟨hh, ha⟩
      · cases p with
        | none => simpa [selStep, handleAnchorSelected, hc] using ⟨hh, ha⟩
        | some q =>
          by_cases hac : i ∈ s.anchorIndices
          · constructor
            · simpa [selStep, handleAnchorSelected, hc, hac] using hh
            · simp [selStep, handleAnchorSelected, hc, hac]
              exact ha.filter _
          · constructor
            · simpa [selStep, handleAnchorSelected, hc, hac] using hh
            · simp [selStep, handleAnchorSelected, hc, hac, List.nodup_append, ha]
  | clear =>
    simp [selStep, clearSelection]

/-- C10: under every sequence of selection operations
(`handleVertexSelected`, `handleAnchorSelected`, `clearSelection`) starting
from the empty state, the `handleIndices` list and the `anchorIndices` list
each contain no duplicate entries. -/
theorem selection_lists_nodup (ops : List SelOp) :
    (runSelOps emptyAppState ops).handleIndices.Nodup ∧
    (runSelOps emptyAppState ops).anchorIndices.Nodup := by
  have h : ∀ s : AppState, s.handleIndices.Nodup → s.anchorIndices.Nodup →
      (runSelOps s ops).handleIndices.Nodup ∧ (runSelOps s ops).anchorIndices.Nodup := by
    induction ops with
    | nil => intro s hh ha; exact ⟨hh, ha⟩
    | cons op rest ih =>
      intro s hh ha
      have h2 := selStep_nodup s op hh ha
      simpa [runSelOps, List.foldl_cons] using ih (selStep s op) h2.1 h2.2
  exact h emptyAppState (by simp [emptyAppState]) (by simp [emptyAppState])

/-- C6: `handleAnchorSelected` on an index currently in the handle set
leaves the state unchanged entirely (in particular both index sets), with
only the warning fired (the handler returns normally — no exception); on
an index already holding the Anchor role it removes the anchor entry, its
stored position included; on any other index it appends the index to the
anchor list and stores its world position.  The hypothesis is the map/list
consistency that every reachable App state satisfies: an index has a
stored position exactly when it is a handle or an anchor. -/
theorem toggleAnchor_cases (s : AppState) (i : Nat) (p : V3)
    (hinv : mapHas s.handlePositions i = true ↔
      (i ∈ s.handleIndices ∨ i ∈ s.anchorIndices)) :
    (i ∈ s.handleIndices →
       (∀ mp pos, (handleAnchorSelected mp pos i s).1 = s) ∧
       (handleAnchorSelected true (some p) i s).2 = true) ∧
    (i ∉ s.handleIndices → i ∈ s.anchorIndices →
       (handleAnchorSelected true (some p) i s).1.handleIndices = s.handleIndices ∧
       i ∉ (handleAnchorSelected true (some p) i s).1.anchorIndices ∧
       mapGet (handleAnchorSelected true (some p) i s).1.handlePositions i = none) ∧
    (i ∉ s.handleIndices → i ∉ s.anchorIndices →
       (handleAnchorSelected true (some p) i s).1.handleIndices = s.handleIndices ∧
       (handleAnchorSelected true (some p) i s).1.anchorIndices = s.anchorIndices ++ [i] ∧
       mapGet (handleAnchorSelected true (some p) i s).1.handlePositions i = some p) := by
  refine ⟨?_, ?_, ?_⟩
  · intro hmem
    constructor
    · intro mp pos
      cases mp with
      | false => simp [handleAnchorSelected]
      | true => simp [handleAnchorSelected, hmem]
    · simp [handleAnchorSelected, hmem]
  · intro hnh hac
    have hhas : mapHas s.handlePositions i = true := hinv.mpr (Or.inr hac)
    refine ⟨?_, ?_, ?_⟩
    · simp [handleAnchorSelected, hnh, hac]
    · simp [handleAnchorSelected, hnh, hac]
    · simp [handleAnchorSelected, hnh, hac, hhas, mapGet_mapDelete_self]
  · intro hnh hna
    have hhas : mapHas s.handlePositions i = false := by
      rcases h : mapHas s.handlePositions i with _ | _
      · rfl
      · exact absurd (hinv.mp h) (by simp [hnh, hna])
    refine ⟨?_, ?_, ?_⟩
    · simp [handleAnchorSelected, hnh, hna]
    · simp [handleAnchorSelected, hnh, hna]
    · simp [handleAnchorSelected, hnh, hna, hhas, mapGet_mapSet_self]

/-- Witness for C6: a concrete state with handle 1 and anchor 2; toggling
an anchor on index 1 (a handle) is a no-op. -/
theorem toggleAnchor_cases_witness :
    (handleAnchorSelected true (some (v3 5 5 5)) 1
      (⟨[1], [2], [(1, v3 1 0 0), (2, v3 2 0 0)], none, false, false, none⟩ : AppState)).1 =
      (⟨[1], [2], [(1, v3 1 0 0), (2, v3 2 0 0)], none, false, false, none⟩ : AppState) := by
  have h := toggleAnchor_cases
    (⟨[1], [2], [(1, v3 1 0 0), (2, v3 2 0 0)], none, false, false, none⟩ : AppState)
    1 (v3 5 5 5) (by decide)
  exact (h.1 (by decide)).1 true (some (v3 5 5 5))

/-- C4 (amended): `updateVertices` performs no size validation.  A buffer
of matching length replaces the whole vertex buffer and triggers normal
recomputation; a shorter buffer does not fail — it overwrites the first
entries and keeps the rest, still recomputing normals; a longer buffer
makes the underlying typed-array copy throw a RangeError with the buffer
unchanged. -/
theorem updateVertices_behavior (g : GeomState) (buf : List JNum) :
    (buf.length = g.buffer.length →
       updateVertices (some g) buf =
         .ok (some ⟨buf, true, g.normalsVersion + 1⟩)) ∧
    (buf.length < g.buffer.length →
       updateVertices (some g) buf =
         .ok (some ⟨buf ++ g.buffer.drop buf.length, true, g.normalsVersion + 1⟩)) ∧
    (g.buffer.length < buf.length →
       updateVertices (some g) buf = .error "RangeError: offset is out of bounds") := by
  refine ⟨?_, ?_, ?_⟩
  · intro h
    have hnl : ¬ g.buffer.length < buf.length := by omega
    simp only [updateVertices, typedArraySet, if_neg hnl]
    rw [h, List.drop_length, List.append_nil]
  · intro h
    have hnl : ¬ g.buffer.length < buf.length := by omega
    simp only [updateVertices, typedArraySet, if_neg hnl]
  · intro h
    simp only [updateVertices, typedArraySet, if_pos h]

/-- Witness for C4's amended theorem at concrete buffers of lengths 3, 3
and 4 against a vertex buffer of length 3. -/
theorem updateVertices_behavior_witness :
    updateVertices (some ⟨[.fin 1, .fin 2, .fin 3], false, 0⟩)
        [.fin 4, .fin 5, .fin 6] =
      .ok (some ⟨[.fin 4, .fin 5, .fin 6], true, 1⟩) ∧
    updateVertices (some ⟨[.fin 1, .fin 2, .fin 3], false, 0⟩)
        [.fin 4, .fin 5, .fin 6, .fin 7] =
      .error "RangeError: offset is out of bounds" :=
  ⟨(updateVertices_behavior ⟨[.fin 1, .fin 2, .fin 3], false, 0⟩
      [.fin 4, .fin 5, .fin 6]).1 (by decide),
   (updateVertices_behavior ⟨[.fin 1, .fin 2, .fin 3], false, 0⟩
      [.fin 4, .fin 5, .fin 6, .fin 7]).2.2 (by decide)⟩

/-- C7 (amended): a mode switch leaves the drag ref untouched (the session
stays open); while the mode is not deform, pointer moves emit nothing; with
an active session in deform mode a pointer move emits the recorded handle
index (so returning to deform resumes the old drag); only pointer-up closes
the session. -/
theorem mode_switch_drag_persistence (s : CtrlState) (m : Mode) (p : V3) :
    (ctrlStep s (.modeSwitch m)).1.drag = s.drag ∧
    (s.mode ≠ .deform → (ctrlStep s (.pointerMove p)).2 = none) ∧
    (s.mode = .deform → s.drag.isDragging = true →
      (ctrlStep s (.pointerMove p)).2 = some (s.drag.handleIndex, p)) ∧
    (ctrlStep s .pointerUp).1.drag.isDragging = false := by
  refine ⟨rfl, ?_, ?_, ?_⟩
  · intro hm
    have hb : (s.mode == Mode.deform) = false := by
      cases hs : s.mode <;> simp_all
    simp [ctrlStep, onPointerMove, hb]
  · intro hm hd
    simp [ctrlStep, onPointerMove, hm, hd]
  · by_cases hd : s.drag.isDragging = true
    · simp [ctrlStep, onPointerUp, hd]
    · simp only [ctrlStep, onPointerUp]
      simp only [hd, if_false]
      simpa using hd

/-- Witness for C7's amended theorem: with an open drag on handle 3, a
pointer move in select mode emits nothing, and one in deform mode emits
handle 3's index. -/
theorem mode_switch_drag_persistence_witness :
    (ctrlStep ⟨.select, ⟨true, 3⟩⟩ (.pointerMove (v3 1 2 3))).2 = none ∧
    (ctrlStep ⟨.deform, ⟨true, 3⟩⟩ (.pointerMove (v3 1 2 3))).2 = some (3, v3 1 2 3) :=
  ⟨(mode_switch_drag_persistence ⟨.select, ⟨true, 3⟩⟩ .view (v3 1 2 3)).2.1 (by decide),
   (mode_switch_drag_persistence ⟨.deform, ⟨true, 3⟩⟩ .view (v3 1 2 3)).2.2.1 rfl rfl⟩

/-- C9 (amended): `cleanup()` during an in-flight `init()` does not cancel
it.  Right after cleanup the service is uninitialized and `loadMesh` fails
with the NotInitialized error, but when the in-flight module load resolves
the continuation installs the constructor anyway, and `loadMesh` then
succeeds. -/
theorem cleanup_during_inflight_init (s : SolverService) (hp : s.pendingInit = true) :
    WasmSolverService.loadMesh (WasmSolverService.cleanup s) =
      .error "WasmSolverService is not initialized. Call init() first." ∧
    (WasmSolverService.initResolve (WasmSolverService.cleanup s)).ctorInstalled = true ∧
    WasmSolverService.loadMesh (WasmSolverService.initResolve (WasmSolverService.cleanup s)) =
      .ok ⟨true, true, false⟩ := by
  refine ⟨?_, ?_, ?_⟩ <;>
    simp [WasmSolverService.loadMesh, WasmSolverService.cleanup,
      WasmSolverService.initResolve, hp]

/-- Witness for C9's amended theorem at the concrete mid-flight service
state produced by calling `init()` on a fresh service. -/
theorem cleanup_during_inflight_init_witness :
    (WasmSolverService.initResolve
      (WasmSolverService.cleanup (⟨false, false, true⟩ : SolverService))).ctorInstalled = true :=
  (cleanup_during_inflight_init ⟨false, false, true⟩ (by decide)).2.1

/-- Constraint indices are Int32Array entries, so the invalid-number check
on them never fires. -/
theorem containsInvalidIndices_false (l : List Nat) :
    containsInvalidIndices l = false := by
  simp [containsInvalidIndices, int32IsFinite]

/-- Reduction of the frame callback on a frame that reaches the solver:
with a pending request, the engine ready, a model group present and finite
converted positions, the callback issues exactly setHandles with the built
payload, then solve(50), then getVertices — whatever the solver then
returns. -/
theorem runDeformation_reaches_solver (t : Transform) (res : Option (List JNum))
    (s : AppState) (di : Nat) (dp : V3)
    (hld : s.latestDragInfo = some (di, dp))
    (hready : s.isWasmReady = true)
    (hvalid : containsInvalidNumbers
      (constraintPositions t (buildAllConstraints s di dp)) = false) :
    (runDeformation (some t) res s).calls =
      [.setHandles (constraintIndices (buildAllConstraints s di dp))
        (constraintPositions t (buildAllConstraints s di dp)),
       .solve 50, .getVertices] := by
  simp only [runDeformation, hld, hready]
  simp only [containsInvalidIndices_false, hvalid, Bool.or_self, Bool.or_false,
    Bool.false_or, if_false]
  cases res with
  | none => rfl
  | some nv => cases h : updateVertices s.geom nv <;> simp [h]

/-- C5: if the solver's getVertices returns none after solve, the frame
callback leaves the geometry (Mesh Store vertex buffer) and the stored
constraint positions exactly as they were, surfaces an error, and clears
the frame-scheduled flag. -/
theorem solver_none_leaves_state_unchanged (t : Transform) (s : AppState)
    (di : Nat) (dp : V3)
    (hld : s.latestDragInfo = some (di, dp))
    (hready : s.isWasmReady = true)
    (hvalid : containsInvalidNumbers
      (constraintPositions t (buildAllConstraints s di dp)) = false) :
    (runDeformation (some t) none s).state.geom = s.geom ∧
    (runDeformation (some t) none s).state.handlePositions = s.handlePositions ∧
    (runDeformation (some t) none s).errors =
      ["Wasm solver did not return any vertices."] ∧
    (runDeformation (some t) none s).state.frameScheduled = false := by
  simp only [runDeformation, hld, hready]
  simp [containsInvalidIndices_false, hvalid]

/-- Witness for C5 at the concrete dragged-handle state with the identity
transform. -/
theorem solver_none_leaves_state_unchanged_witness :
    (runDeformation (some idTransform) none dragStateOneHandle).state.geom =
      dragStateOneHandle.geom ∧
    (runDeformation (some idTransform) none dragStateOneHandle).state.handlePositions =
      dragStateOneHandle.handlePositions ∧
    (runDeformation (some idTransform) none dragStateOneHandle).errors =
      ["Wasm solver did not return any vertices."] := by
  have h := solver_none_leaves_state_unchanged idTransform dragStateOneHandle 0 (v3 2 0 0)
    (by decide) (by decide) (by decide)
  exact ⟨h.1, h.2.1, h.2.2.1⟩

/-- The last element of a cons is the last of the tail, falling back to the
head. -/
theorem getLast?_cons_eq_or {α : Type} (mv : α) (rest : List α) :
    (mv :: rest).getLast? = (rest.getLast?).or (some mv) := by
  induction rest generalizing mv with
  | nil => rfl
  | cons b l ih =>
    rw [List.getLast?_cons_cons, ih b]
    cases hl : l.getLast? <;> rfl

/-- When a frame callback is already scheduled, further `handleMove` calls
schedule nothing: they only overwrite the pending request with the latest
value. -/
theorem moves_foldl_flag_true (moves : List (Nat × V3)) :
    ∀ (s : AppState) (c : Nat), s.frameScheduled = true →
      (moves.foldl moveStep (s, c)).2 = c ∧
      (moves.foldl moveStep (s, c)).1 =
        { s with latestDragInfo := (moves.getLast?).or s.latestDragInfo,
                 frameScheduled := true } := by
  induction moves with
  | nil =>
    intro s c hs
    obtain ⟨a, b, c', d, e, f, g⟩ := s
    simp_all
  | cons mv rest ih =>
    intro s c hs
    have hms : moveStep (s, c) mv = ({ s with latestDragInfo := some mv }, c) := by
      simp [moveStep, handleMove, hs]
    rw [List.foldl_cons, hms]
    have hih := ih { s with latestDragInfo := some mv } c (by simpa using hs)
    refine ⟨hih.1, ?_⟩
    rw [hih.2, getLast?_cons_eq_or]
    cases hl : rest.getLast? <;> simp

/-- With no frame scheduled, a nonempty burst of `handleMove` calls
schedules exactly one frame callback, and the pending request ends at the
burst's last value; no other App state field changes. -/
theorem applyMoves_first_schedules (moves : List (Nat × V3)) (s : AppState)
    (hflag : s.frameScheduled = false) (hne : moves ≠ []) :
    (applyMoves moves s).2 = 1 ∧
    (applyMoves moves s).1 =
      { s with latestDragInfo := (moves.getLast?).or s.latestDragInfo,
               frameScheduled := true } := by
  cases moves with
  | nil => exact absurd rfl hne
  | cons mv rest =>
    have hms : moveStep (s, 0) mv =
        ({ s with latestDragInfo := some mv, frameScheduled := true }, 1) := by
      simp [moveStep, handleMove, hflag]
    unfold applyMoves
    rw [List.foldl_cons, hms]
    have hih := moves_foldl_flag_true rest
      { s with latestDragInfo := some mv, frameScheduled := true } 1 rfl
    refine ⟨hih.1, ?_⟩
    rw [hih.2, getLast?_cons_eq_or]
    cases hl : rest.getLast? <;> simp

/-- The handles pass of the constraint build writes the dragged position
at the dragged index and never erases it afterwards. -/
theorem handlesFold_get_dragged (src : PosMap) (di : Nat) (dp : V3) :
    ∀ (hs : List Nat) (m0 : PosMap),
      (di ∈ hs ∨ mapGet m0 di = some dp) →
      mapGet (hs.foldl (fun m hi =>
        if hi == di then mapSet m hi dp
        else match mapGet src hi with
          | some p => mapSet m hi p
          | none => m) m0) di = some dp := by
  intro hs
  induction hs with
  | nil =>
    intro m0 h
    rcases h with h | h
    · cases h
    · simpa using h
  | cons hi rest ih =>
    intro m0 h
    rw [List.foldl_cons]
    by_cases hhi : hi = di
    · subst hhi
      apply ih
      right
      simp [mapGet_mapSet_self]
    · have hne : (hi == di) = false := by simp [hhi]
      have hkeep : mapGet (if hi == di then mapSet m0 hi dp
          else match mapGet src hi with
            | some p => mapSet m0 hi p
            | none => m0) di = mapGet m0 di := by
        rw [hne]
        simp only [Bool.false_eq_true, if_false]
        cases hg : mapGet src hi with
        | some p => exact mapGet_mapSet_ne m0 di hi p hhi
        | none => rfl
      apply ih
      rcases h with h | h
      · rcases List.mem_cons.mp h with h1 | h1
        · exact absurd h1.symm hhi
        · exact Or.inl h1
      · exact Or.inr (hkeep.trans h)

/-- The constraint payload maps the dragged handle to the dragged
position whenever the dragged index is a handle. -/
theorem buildAllConstraints_get_dragged (s : AppState) (di : Nat) (dp : V3)
    (hmem : di ∈ s.handleIndices) :
    mapGet (buildAllConstraints s di dp) di = some dp := by
  simp only [buildAllConstraints]
  exact handlesFold_get_dragged s.handlePositions di dp s.handleIndices _ (Or.inl hmem)

/-- C3: if `handleMove` is called n >= 1 times between two consecutive
frame callbacks (so the frame-scheduled flag starts clear), exactly one
frame callback is scheduled; the pending request ends at the last position;
the constraint payload the frame callback builds maps the dragged index to
exactly that last position; and the frame callback issues exactly one
setHandles and one solve call. -/
theorem coalescing_last_position_single_solve
    (s : AppState) (moves : List (Nat × V3)) (i : Nat) (pn : V3)
    (t : Transform) (res : Option (List JNum))
    (hflag : s.frameScheduled = false)
    (hlast : moves.getLast? = some (i, pn))
    (hready : s.isWasmReady = true)
    (hmem : i ∈ s.handleIndices)
    (hvalid : containsInvalidNumbers
      (constraintPositions t (buildAllConstraints (applyMoves moves s).1 i pn)) = false) :
    (applyMoves moves s).2 = 1 ∧
    (applyMoves moves s).1.latestDragInfo = some (i, pn) ∧
    mapGet (buildAllConstraints (applyMoves moves s).1 i pn) i = some pn ∧
    (runDeformation (some t) res (applyMoves moves s).1).calls.countP isSetHandlesCall = 1 ∧
    (runDeformation (some t) res (applyMoves moves s).1).calls.countP isSolveCall = 1 := by
  have hne : moves ≠ [] := by
    intro h
    rw [h] at hlast
    cases hlast
  obtain ⟨hc, hs⟩ := applyMoves_first_schedules moves s hflag hne
  have hld : (applyMoves moves s).1.latestDragInfo = some (i, pn) := by
    rw [hs]
    simp [hlast]
  have hmem2 : i ∈ (applyMoves moves s).1.handleIndices := by
    rw [hs]
    simpa using hmem
  have hr : (applyMoves moves s).1.isWasmReady = true := by
    rw [hs]
    simpa using hready
  refine ⟨hc, hld, buildAllConstraints_get_dragged _ i pn hmem2, ?_, ?_⟩ <;>
    rw [runDeformation_reaches_solver t res _ i pn hld hr hvalid] <;>
    simp [List.countP_cons, isSetHandlesCall, isSolveCall]

/-- Witness for C3: five pointer moves on handle 0 ending at position
(5,5,5), from a ready state with no frame scheduled; one frame is
scheduled, the payload for handle 0 is the fifth position, and the solver
is invoked once. -/
theorem coalescing_last_position_single_solve_witness :
    (applyMoves [(0, v3 1 1 1), (0, v3 2 2 2), (0, v3 3 3 3), (0, v3 4 4 4), (0, v3 5 5 5)]
      (⟨[0], [], [(0, v3 1 0 0)], none, false, true,
        some ⟨[.fin 0, .fin 0, .fin 0], false, 0⟩⟩ : AppState)).2 = 1 ∧
    mapGet (buildAllConstraints
      (applyMoves [(0, v3 1 1 1), (0, v3 2 2 2), (0, v3 3 3 3), (0, v3 4 4 4), (0, v3 5 5 5)]
        (⟨[0], [], [(0, v3 1 0 0)], none, false, true,
          some ⟨[.fin 0, .fin 0, .fin 0], false, 0⟩⟩ : AppState)).1 0 (v3 5 5 5)) 0 =
      some (v3 5 5 5) ∧
    (runDeformation (some idTransform) none
      (applyMoves [(0, v3 1 1 1), (0, v3 2 2 2), (0, v3 3 3 3), (0, v3 4 4 4), (0, v3 5 5 5)]
        (⟨[0], [], [(0, v3 1 0 0)], none, false, true,
          some ⟨[.fin 0, .fin 0, .fin 0], false, 0⟩⟩ : AppState)).1).calls.countP isSolveCall = 1 := by
  have h := coalescing_last_position_single_solve
    (⟨[0], [], [(0, v3 1 0 0)], none, false, true,
      some ⟨[.fin 0, .fin 0, .fin 0], false, 0⟩⟩ : AppState)
    [(0, v3 1 1 1), (0, v3 2 2 2), (0, v3 3 3 3), (0, v3 4 4 4), (0, v3 5 5 5)]
    0 (v3 5 5 5) idTransform none
    (by decide) (by decide) (by decide) (by decide) (by decide)
  exact ⟨h.1, h.2.2.1, h.2.2.2.2⟩

/-- Squared distance is nonnegative. -/
theorem distanceToSquared_nonneg (a b : V3I) : 0 ≤ distanceToSquared a b := by
  unfold distanceToSquared
  positivity

/-- Squared distance vanishes exactly on equal points. -/
theorem distanceToSquared_eq_zero (a b : V3I) :
    distanceToSquared a b = 0 ↔ a = b := by
  constructor
  · intro h
    unfold distanceToSquared at h
    have q1 := sq_nonneg (a.x - b.x)
    have q2 := sq_nonneg (a.y - b.y)
    have q3 := sq_nonneg (a.z - b.z)
    have h1 : (a.x - b.x) ^ 2 = 0 := by nlinarith
    have h2 : (a.y - b.y) ^ 2 = 0 := by nlinarith
    have h3 : (a.z - b.z) ^ 2 = 0 := by nlinarith
    have e1 : a.x = b.x := sub_eq_zero.mp (sq_eq_zero_iff.mp h1)
    have e2 : a.y = b.y := sub_eq_zero.mp (sq_eq_zero_iff.mp h2)
    have e3 : a.z = b.z := sub_eq_zero.mp (sq_eq_zero_iff.mp h3)
    obtain ⟨ax, ay, az⟩ := a
    obtain ⟨bx, bY, bz⟩ := b
    simp only at e1 e2 e3
    rw [e1, e2, e3]
  · intro h
    subst h
    unfold distanceToSquared
    ring

/-- Vertex distance at the head of the buffer. -/
theorem dAt_cons_zero (p : V3I) (lw : V3I → V3I) (v : V3I) (rest : List V3I) :
    dAt p lw (v :: rest) 0 = distanceToSquared (lw v) p := rfl

/-- Vertex distance at a later position of the buffer. -/
theorem dAt_cons_succ (p : V3I) (lw : V3I → V3I) (v : V3I) (rest : List V3I) (j : Nat) :
    dAt p lw (v :: rest) (j + 1) = dAt p lw rest j := rfl

/-- Unfolding of the scan loop on a nonempty buffer with a finite running
minimum. -/
theorem findNearLoop_cons (p : V3I) (lw : V3I → V3I) (v : V3I) (rest : List V3I)
    (i : Nat) (d : Int) (b : Int) :
    findNearLoop p lw (v :: rest) i (some d) b =
      if distanceToSquared (lw v) p < d then
        findNearLoop p lw rest (i + 1) (some (distanceToSquared (lw v) p)) (i : Int)
      else findNearLoop p lw rest (i + 1) (some d) b := rfl

/-- Correctness of the scan loop: if no element beats the running minimum
strictly, the running best index survives; otherwise the loop returns the
offset of the first element attaining the minimum of the remaining buffer,
which beats the running minimum, is minimal over the buffer and strictly
smaller than every earlier element. -/
theorem findNearLoop_spec (p : V3I) (lw : V3I → V3I) :
    ∀ (l : List V3I) (i : Nat) (d : Int) (b : Int),
      ((∀ k, k < l.length → d ≤ dAt p lw l k) →
        findNearLoop p lw l i (some d) b = b) ∧
      (∀ k, k < l.length → dAt p lw l k < d →
        ∃ k0, k0 < l.length ∧
          findNearLoop p lw l i (some d) b = ((i : Int) + (k0 : Int)) ∧
          dAt p lw l k0 < d ∧
          (∀ j, j < l.length → dAt p lw l k0 ≤ dAt p lw l j) ∧
          (∀ j, j < k0 → dAt p lw l k0 < dAt p lw l j)) := by
  intro l
  induction l with
  | nil =>
    intro i d b
    exact ⟨fun _ => rfl, fun k hk _ => absurd hk (by simp)⟩
  | cons v rest ih =>
    intro i d b
    constructor
    · intro hall
      have h0 : d ≤ distanceToSquared (lw v) p := by
        simpa [dAt_cons_zero] using hall 0 (by simp)
      rw [findNearLoop_cons, if_neg (not_lt.mpr h0)]
      apply (ih (i + 1) d b).1
      intro k hk
      simpa [dAt_cons_succ] using hall (k + 1) (by simpa using Nat.succ_lt_succ hk)
    · intro k hk hlt
      rw [findNearLoop_cons]
      by_cases h0 : distanceToSquared (lw v) p < d
      · rw [if_pos h0]
        by_cases himp : ∃ k2, k2 < rest.length ∧
            dAt p lw rest k2 < distanceToSquared (lw v) p
        · obtain ⟨k2, hk2, hk2lt⟩ := himp
          obtain ⟨k0, hk0len, heq, hk0lt, hmin, hstrict⟩ :=
            (ih (i + 1) (distanceToSquared (lw v) p) (i : Int)).2 k2 hk2 hk2lt
          refine ⟨k0 + 1, by simpa using Nat.succ_lt_succ hk0len, ?_, ?_, ?_, ?_⟩
          · rw [heq]; push_cast; ring
          · rw [dAt_cons_succ]; exact lt_trans hk0lt h0
          · intro j hj
            cases j with
            | zero => rw [dAt_cons_succ, dAt_cons_zero]; exact le_of_lt hk0lt
            | succ j2 =>
              rw [dAt_cons_succ, dAt_cons_succ]
              exact hmin j2 (by simpa using hj)
          · intro j hj
            cases j with
            | zero => rw [dAt_cons_succ, dAt_cons_zero]; exact hk0lt
            | succ j2 =>
              rw [dAt_cons_succ, dAt_cons_succ]
              exact hstrict j2 (by omega)
        · push_neg at himp
          have hres : findNearLoop p lw rest (i + 1)
              (some (distanceToSquared (lw v) p)) (i : Int) = (i : Int) := by
            apply (ih (i + 1) _ _).1
            intro k2 hk2
            exact himp k2 hk2
          refine ⟨0, by simp, by rw [hres]; simp, ?_, ?_, ?_⟩
          · rw [dAt_cons_zero]; exact h0
          · intro j hj
            cases j with
            | zero => exact le_refl _
            | succ j2 =>
              rw [dAt_cons_zero, dAt_cons_succ]
              exact himp j2 (by simpa using hj)
          · intro j hj
            exact absurd hj (by omega)
      · rw [if_neg h0]
        have hd0 : d ≤ distanceToSquared (lw v) p := not_lt.mp h0
        cases k with
        | zero =>
          rw [dAt_cons_zero] at hlt
          exact absurd hlt (not_lt.mpr hd0)
        | succ k2 =>
          rw [dAt_cons_succ] at hlt
          obtain ⟨k0, hk0len, heq, hk0lt, hmin, hstrict⟩ :=
            (ih (i + 1) d b).2 k2 (by simpa using hk) hlt
          refine ⟨k0 + 1, by simpa using Nat.succ_lt_succ hk0len, ?_, ?_, ?_, ?_⟩
          · rw [heq]; push_cast; ring
          · rw [dAt_cons_succ]; exact hk0lt
          · intro j hj
            cases j with
            | zero =>
              rw [dAt_cons_succ, dAt_cons_zero]
              exact le_trans (le_of_lt hk0lt) hd0
            | succ j2 =>
              rw [dAt_cons_succ, dAt_cons_succ]
              exact hmin j2 (by simpa using hj)
          · intro j hj
            cases j with
            | zero =>
              rw [dAt_cons_succ, dAt_cons_zero]
              exact lt_of_lt_of_le hk0lt hd0
            | succ j2 =>
              rw [dAt_cons_succ, dAt_cons_succ]
              exact hstrict j2 (by omega)

/-- Unfolding of `findNearestVertexIndex` on a nonempty buffer: the first
vertex always replaces the Infinity initial minimum. -/
theorem findNearestVertexIndex_cons (p : V3I) (lw : V3I → V3I) (v : V3I)
    (rest : List V3I) :
    findNearestVertexIndex p (v :: rest) lw =
      findNearLoop p lw rest 1 (some (distanceToSquared (lw v) p)) 0 := rfl

/-- On a nonempty buffer, `findNearestVertexIndex` returns the first index
of minimum squared world-space distance. -/
theorem findNearestVertexIndex_spec (p : V3I) (lw : V3I → V3I)
    (vertices : List V3I) (hne : vertices ≠ []) :
    ∃ k : Nat, k < vertices.length ∧
      findNearestVertexIndex p vertices lw = (k : Int) ∧
      (∀ j, j < vertices.length → dAt p lw vertices k ≤ dAt p lw vertices j) ∧
      (∀ j, j < k → dAt p lw vertices k < dAt p lw vertices j) := by
  cases vertices with
  | nil => exact absurd rfl hne
  | cons v rest =>
    by_cases himp : ∃ k2, k2 < rest.length ∧
        dAt p lw rest k2 < distanceToSquared (lw v) p
    · obtain ⟨k2, hk2, hk2lt⟩ := himp
      obtain ⟨k0, hk0len, heq, hk0lt, hmin, hstrict⟩ :=
        (findNearLoop_spec p lw rest 1 (distanceToSquared (lw v) p) 0).2 k2 hk2 hk2lt
      refine ⟨k0 + 1, by simpa using Nat.succ_lt_succ hk0len, ?_, ?_, ?_⟩
      · rw [findNearestVertexIndex_cons, heq]; push_cast; ring
      · intro j hj
        cases j with
        | zero => rw [dAt_cons_succ, dAt_cons_zero]; exact le_of_lt hk0lt
        | succ j2 =>
          rw [dAt_cons_succ, dAt_cons_succ]
          exact hmin j2 (by simpa using hj)
      · intro j hj
        cases j with
        | zero => rw [dAt_cons_succ, dAt_cons_zero]; exact hk0lt
        | succ j2 =>
          rw [dAt_cons_succ, dAt_cons_succ]
          exact hstrict j2 (by omega)
    · push_neg at himp
      have hres : findNearestVertexIndex p (v :: rest) lw = ((0 : Nat) : Int) := by
        rw [findNearestVertexIndex_cons]
        have := (findNearLoop_spec p lw rest 1 (distanceToSquared (lw v) p) 0).1
          (fun k2 hk2 => himp k2 hk2)
        rw [this]
        simp
      refine ⟨0, by simp, hres, ?_, ?_⟩
      · intro j hj
        cases j with
        | zero => exact le_refl _
        | succ j2 =>
          rw [dAt_cons_zero, dAt_cons_succ]
          exact himp j2 (by simpa using hj)
      · intro j hj
        exact absurd hj (by omega)

/-- C8: picking resolution.  A ray that misses the mesh resolves to no
selection.  On any non-empty vertex buffer and surface intersection point,
the resolved index is one of minimum squared world-space distance to the
intersection point, the first such index when several tie.  A ray hitting
exactly at a vertex's world position resolves to that vertex's index (the
first one there when positions coincide). -/
theorem pickVertex_nearest_and_miss (vertices : List V3I) (lw : V3I → V3I) (p : V3I) :
    pickVertex none vertices lw = none ∧
    (vertices ≠ [] →
      ∃ k : Nat, k < vertices.length ∧
        pickVertex (some p) vertices lw = some ((k : Int)) ∧
        (∀ j, j < vertices.length → dAt p lw vertices k ≤ dAt p lw vertices j) ∧
        (∀ j, j < k → dAt p lw vertices k < dAt p lw vertices j)) ∧
    (∀ kv, kv < vertices.length →
      lw (vertices.getD kv ⟨0, 0, 0⟩) = p →
      (∀ j, j < kv → lw (vertices.getD j ⟨0, 0, 0⟩) ≠ p) →
      pickVertex (some p) vertices lw = some ((kv : Int))) := by
  have hpick : ∀ (k : Nat), findNearestVertexIndex p vertices lw = (k : Int) →
      pickVertex (some p) vertices lw = some ((k : Int)) := by
    intro k hk
    have hne2 : (((k : Int)) == (-1 : Int)) = false := by
      simp only [beq_eq_false_iff_ne, ne_eq]
      omega
    simp [pickVertex, hk, hne2]
  refine ⟨rfl, ?_, ?_⟩
  · intro hne
    obtain ⟨k, hklen, hkeq, hmin, hstrict⟩ := findNearestVertexIndex_spec p lw vertices hne
    exact ⟨k, hklen, hpick k hkeq, hmin, hstrict⟩
  · intro kv hkv hhit hfirst
    have hne : vertices ≠ [] := by
      intro h
      rw [h] at hkv
      simp at hkv
    obtain ⟨k, hklen, hkeq, hmin, hstrict⟩ := findNearestVertexIndex_spec p lw vertices hne
    have hdkv : dAt p lw vertices kv = 0 := by
      unfold dAt
      rw [hhit]
      exact (distanceToSquared_eq_zero p p).mpr rfl
    have hk0 : dAt p lw vertices k = 0 := by
      have hle := hmin kv hkv
      rw [hdkv] at hle
      have hge : 0 ≤ dAt p lw vertices k := by
        unfold dAt
        exact distanceToSquared_nonneg _ _
      exact le_antisymm hle hge
    have hkkv : k = kv := by
      rcases lt_trichotomy k kv with hlt | heq | hgt
      · have hkp : lw (vertices.getD k ⟨0, 0, 0⟩) = p := by
          have h0 := hk0
          unfold dAt at h0
          exact (distanceToSquared_eq_zero _ _).mp h0
        exact absurd hkp (hfirst k hlt)
      · exact heq
      · have hc := hstrict kv hgt
        rw [hdkv, hk0] at hc
        exact absurd hc (lt_irrefl 0)
    subst hkkv
    exact hpick k hkeq

/-- Witness for C8: on a two-vertex buffer with the identity transform, a
hit exactly at the second vertex's position resolves to index 1. -/
theorem pickVertex_nearest_and_miss_witness :
    pickVertex (some ⟨3, 0, 0⟩) [⟨0, 0, 0⟩, ⟨3, 0, 0⟩] (fun w => w) = some 1 := by
  have h := pickVertex_nearest_and_miss [⟨0, 0, 0⟩, ⟨3, 0, 0⟩] (fun w => w) ⟨3, 0, 0⟩
  exact h.2.2 1 (by decide) (by decide) (by decide)
